import Mathlib

/-!
Verification of the agent-backend supervision and conversation-concurrency
engine of the vibe-remote repository.  The definitions below are shallow
embeddings of the Python source: `src/core/controller.py` (message
consolidation) and `src/modules/agents/opencode_agent.py` (server
supervision, request serialization, polling reconciliation and the
question flow).  Strings are modelled as `String` or `List Char`,
dictionaries as functions into `Option`, and the outcomes of HTTP calls
and other I/O as explicit oracle parameters.
-/

namespace VibeRemote

/-- Python truthiness for an optional string: `None` and the empty string
are falsy. -/
def truthyStr : Option String → Bool
  | none => false
  | some s => !s.isEmpty

/-- Python `a or b` on optional strings (empty strings fall through). -/
def pyOrStr (a b : Option String) : Option String :=
  if truthyStr a then a else b

/-- Python `s.startswith(p)` as a prefix test on the character lists. -/
def strStartsWith (s p : String) : Bool := p.data.isPrefixOf s.data

/-! ## MessageConsolidator — `src/core/controller.py` -/

/-- The truncation marker prepended by `Controller._truncate_consolidated`. -/
def truncMarker : List Char := "…(truncated)…\n\n".data

/-- Python `xs[-k:]`: the last `k` characters, the whole string when
`k = 0` (Python `xs[-0:]` is `xs[0:]`). -/
def pyTail (k : Nat) (xs : List Char) : List Char :=
  if k = 0 then xs else xs.drop (xs.length - k)

/-- `Controller._get_consolidated_max_chars`: the per-platform character
budget for the consolidated status message. -/
def getConsolidatedMaxChars (platform : String) : Nat :=
  if platform = "slack" then 35000
  else if platform = "telegram" then 3200
  else 8000

/-- `Controller._truncate_consolidated`: keep the text unchanged when it
fits, otherwise keep the tail and prepend the truncation marker. -/
def truncateConsolidated (text : List Char) (maxChars : Nat) : List Char :=
  if text.length ≤ maxChars then text
  else truncMarker ++ pyTail (maxChars - truncMarker.length) text

theorem truncMarker_length : truncMarker.length = 15 := by decide

theorem getConsolidatedMaxChars_ge (platform : String) :
    16 ≤ getConsolidatedMaxChars platform := by
  unfold getConsolidatedMaxChars
  split
  · omega
  · split <;> omega

/-- C5: for every input text and each configured platform budget (35000
for slack, 3200 for telegram, 8000 otherwise), the truncated buffer never
exceeds the budget, text within the budget is returned unchanged, and a
truncated result is the truncation marker followed by exactly the tail of
the untruncated text (hence its suffix after the marker is a suffix of
the original text). -/
theorem truncate_consolidated_spec (text : List Char) (platform : String) :
    (truncateConsolidated text (getConsolidatedMaxChars platform)).length
      ≤ getConsolidatedMaxChars platform ∧
    (text.length ≤ getConsolidatedMaxChars platform →
      truncateConsolidated text (getConsolidatedMaxChars platform) = text) ∧
    (getConsolidatedMaxChars platform < text.length →
      truncateConsolidated text (getConsolidatedMaxChars platform) =
        truncMarker ++
          text.drop (text.length - (getConsolidatedMaxChars platform - truncMarker.length)) ∧
      List.IsSuffix
        ((truncateConsolidated text (getConsolidatedMaxChars platform)).drop truncMarker.length)
        text ∧
      List.IsPrefix truncMarker
        (truncateConsolidated text (getConsolidatedMaxChars platform))) := by
  have hm : 16 ≤ getConsolidatedMaxChars platform := getConsolidatedMaxChars_ge platform
  set m := getConsolidatedMaxChars platform with hmdef
  by_cases hle : text.length ≤ m
  · refine ⟨?_, fun _ => ?_, fun hlt => ?_⟩
    · simp [truncateConsolidated, hle]
    · simp [truncateConsolidated, hle]
    · omega
  · have hlt : m < text.length := by omega
    have hkeep : m - truncMarker.length ≠ 0 := by
      rw [truncMarker_length]; omega
    have heq : truncateConsolidated text m =
        truncMarker ++ text.drop (text.length - (m - truncMarker.length)) := by
      simp [truncateConsolidated, hle, pyTail, hkeep]
    refine ⟨?_, fun h => absurd h hle, fun _ => ⟨heq, ?_, ?_⟩⟩
    · rw [heq]
      simp only [List.length_append, List.length_drop, truncMarker_length]
      omega
    · rw [heq, List.drop_append_of_le_length (by omega), List.drop_length, List.nil_append]
      exact List.drop_suffix _ _
    · rw [heq]
      exact ⟨_, rfl⟩

/-- Python `str.strip()` on a character list: drop whitespace from both
ends. -/
def pyStrip (xs : List Char) : List Char :=
  ((xs.dropWhile Char.isWhitespace).reverse.dropWhile Char.isWhitespace).reverse

/-- `SettingsManager._canonicalize_message_type` with the
`MESSAGE_TYPE_ALIASES` table inlined. -/
def canonicalizeMessageType (t : String) : String :=
  if t = "response" then "toolcall"
  else if t = "user" then "toolcall"
  else if t = "tool_call" then "toolcall"
  else if t = "tool" then "toolcall"
  else t

/-- The divider inserted between consolidated chunks. -/
def consolidatedDivider : List Char := "\n\n---\n\n".data

/-- The consolidation state owned by the controller: per-key buffer text
and per-key id of the outstanding edited message. -/
structure ConsolidatorState where
  buffers : String → Option (List Char)
  messageIds : String → Option String

/-- An observable chat-surface effect of `emit_agent_message`. -/
inductive ChatAction
  | sendStandalone (text : List Char)
  | editConsolidated (msgId : String) (text : List Char)
  | sendConsolidated (msgId : String) (text : List Char)
deriving DecidableEq

/-- The environment oracles consumed by one `emit_agent_message` call:
the platform, the hidden message types for the settings key, whether the
in-place edit succeeds, whether the fresh send succeeds, and the id the
chat surface assigns to a freshly sent message. -/
structure EmitEnv where
  platform : String
  hiddenTypes : List String
  editOk : Bool
  sendOk : Bool
  newMessageId : String

/-- The send-new-message tail of `Controller.emit_agent_message`
(lines 344-350): on success record the new id as the edit target, on
failure log and leave the state alone. -/
def sendNewConsolidated (env : EmitEnv) (st : ConsolidatorState) (key : String)
    (updated : List Char) : ConsolidatorState × List ChatAction :=
  if env.sendOk then
    (⟨st.buffers, fun k => if k = key then some env.newMessageId else st.messageIds k⟩,
      [ChatAction.sendConsolidated env.newMessageId updated])
  else (st, [])

/-- `Controller.emit_agent_message`: empty/whitespace text is dropped,
`notify` and `result` are sent immediately, hidden types are skipped,
and everything else is appended to the per-key buffer (with divider),
truncated to the platform budget, and either edited in place or sent as
a fresh consolidated message. -/
def emitAgentMessage (env : EmitEnv) (st : ConsolidatorState) (key : String)
    (messageType : String) (text : List Char) : ConsolidatorState × List ChatAction :=
  if text.isEmpty || (pyStrip text).isEmpty then (st, [])
  else
    let canonical0 := canonicalizeMessageType messageType
    if canonical0 = "notify" then (st, [ChatAction.sendStandalone text])
    else if canonical0 = "result" then (st, [ChatAction.sendStandalone text])
    else
      let canonical :=
        if canonical0 = "system" ∨ canonical0 = "assistant" ∨ canonical0 = "toolcall"
        then canonical0 else "assistant"
      if canonical ∈ env.hiddenTypes then (st, [])
      else
        let chunk := pyStrip text
        let existing := (st.buffers key).getD []
        let updated :=
          if existing.isEmpty then chunk
          else existing ++ consolidatedDivider ++ chunk
        let updated := truncateConsolidated updated (getConsolidatedMaxChars env.platform)
        let st1 : ConsolidatorState :=
          ⟨fun k => if k = key then some updated else st.buffers k, st.messageIds⟩
        match st1.messageIds key with
        | some mid =>
          if env.editOk then (st1, [ChatAction.editConsolidated mid updated])
          else
            let st2 : ConsolidatorState :=
              ⟨st1.buffers, fun k => if k = key then none else st1.messageIds k⟩
            let r := sendNewConsolidated env st2 key updated
            (r.1, ChatAction.editConsolidated mid updated :: r.2)
        | none => sendNewConsolidated env st1 key updated

/-- C10: emitting empty or whitespace-only text is a no-op for every
context and message category: no chat message is sent or edited and the
buffers and edit-target map are unchanged. -/
theorem emit_agent_message_whitespace_noop (env : EmitEnv) (st : ConsolidatorState)
    (key messageType : String) (text : List Char)
    (h : ∀ c ∈ text, c.isWhitespace) :
    emitAgentMessage env st key messageType text = (st, []) := by
  have hdrop : text.dropWhile Char.isWhitespace = [] :=
    List.dropWhile_eq_nil_iff.mpr h
  have hstrip : pyStrip text = [] := by
    simp [pyStrip, hdrop]
  simp [emitAgentMessage, hstrip]

/-- Witness for C10 at a concrete whitespace-only input. -/
theorem emit_agent_message_whitespace_noop_witness :
    emitAgentMessage ⟨"slack", [], true, true, "m9"⟩
      ⟨fun _ => none, fun _ => none⟩ "k" "assistant" [' ', '\n', '\t'] =
      (⟨fun _ => none, fun _ => none⟩, []) :=
  emit_agent_message_whitespace_noop _ _ _ _ _ (by decide)

/-! ## PollingReconciler — `OpenCodeAgent._process_message`
(`src/modules/agents/opencode_agent.py`) -/

/-- One content part of a transcript message, with the fields the poll
loop reads: the part type, `callID`, part `id`, tool name, the tool
state status, and the text payload of text parts. -/
structure Part where
  ptype : String
  callID : Option String
  partID : Option String
  tool : Option String
  status : Option String
  text : Option String
deriving DecidableEq

/-- One transcript message: `info.id`, `info.role`, truthiness of
`info.time.completed`, `info.finish`, and the ordered content parts. -/
structure TranscriptMessage where
  mid : Option String
  role : Option String
  completed : Bool
  finish : Option String
  parts : List Part
deriving DecidableEq

/-- `call_key = part.get("callID") or part.get("id")`, `none` when the
resulting key is falsy (`if not call_key: continue`). -/
def callKey (p : Part) : Option String :=
  let k := pyOrStr p.callID p.partID
  if truthyStr k then k else none

/-- `tool_name = part.get("tool") or "tool"`. -/
def toolName (p : Part) : String :=
  match p.tool with
  | some s => if s.isEmpty then "tool" else s
  | none => "tool"

/-- A clarification question tool-call that is not yet completed
(`tool_name == "question" and tool_state.get("status") != "completed"`). -/
def isUnansweredQuestion (p : Part) : Bool :=
  toolName p = "question" && p.status ≠ some "completed"

/-- `OpenCodeAgent._extract_response_text`: concatenate the non-empty
texts of the text-typed parts with a blank-line separator and trim. -/
def extractResponseText (m : TranscriptMessage) : String :=
  let textParts := (m.parts.filter (fun p => p.ptype = "text")).filterMap
    (fun p => match p.text with
      | some s => if s.isEmpty then none else some s
      | none => none)
  (String.intercalate "\n\n" textParts).trim

/-- The final-answer test of the poll loop (lines 1977-1983): the id is
truthy and new, the message is assistant-authored, its completion flag is
set and its finish reason is not the pending-tool-calls value. -/
def isFinalAnswer (baseline : List String) (m : TranscriptMessage) : Bool :=
  match m.mid with
  | none => false
  | some i =>
    !i.isEmpty && !(baseline.contains i) && m.role = some "assistant" &&
      m.completed && m.finish ≠ some "tool-calls"

/-- The final-answer selection actually performed by one poll iteration:
only the last message of the fetched transcript is inspected
(`last_message = messages[-1]`). -/
def pollFinalAnswer (baseline : List String) (messages : List TranscriptMessage) :
    Option TranscriptMessage :=
  match messages.getLast? with
  | none => none
  | some last => if isFinalAnswer baseline last then some last else none

/-- The final-answer selection described by the spec sentence: the first
transcript message satisfying the three stated conditions terminates
reconciliation, for every qualifying agent-authored message. -/
def specFinalAnswer (baseline : List String) (messages : List TranscriptMessage) :
    Option TranscriptMessage :=
  messages.find? (fun m => isFinalAnswer baseline m)

/-- C2 counterexample: a transcript whose first message satisfies every
stated final-answer condition, followed by a later in-progress message,
is not treated as final by the code (which inspects only the last
message), while the claim as stated requires it to be. -/
theorem poll_final_answer_counterexample :
    isFinalAnswer []
        ⟨some "m1", some "assistant", true, some "stop", []⟩ = true ∧
    specFinalAnswer []
        [⟨some "m1", some "assistant", true, some "stop", []⟩,
         ⟨some "m2", some "assistant", false, none, []⟩] =
      some ⟨some "m1", some "assistant", true, some "stop", []⟩ ∧
    pollFinalAnswer []
        [⟨some "m1", some "assistant", true, some "stop", []⟩,
         ⟨some "m2", some "assistant", false, none, []⟩] = none := by
  decide

/-- C2 (amended): a poll iteration treats a message as the final answer
exactly when it is the last message of the fetched transcript and its
completion flag is set, its id is truthy and not in the baseline
snapshot, it is assistant-authored, and its finish reason is not the
pending-tool-calls value. -/
theorem poll_final_answer_amended (baseline : List String)
    (messages : List TranscriptMessage) (m : TranscriptMessage) :
    pollFinalAnswer baseline messages = some m ↔
      (messages.getLast? = some m ∧ isFinalAnswer baseline m = true) := by
  unfold pollFinalAnswer
  cases hlast : messages.getLast? with
  | none => simp
  | some last =>
    by_cases hf : isFinalAnswer baseline last = true
    · simp only [hf, if_true]
      constructor
      · rintro h
        cases h
        exact ⟨rfl, hf⟩
      · rintro ⟨h1, _⟩
        cases h1
        rfl
    · simp only [Bool.not_eq_true] at hf
      simp only [hf]
      constructor
      · intro h
        simp at h
      · rintro ⟨h1, h2⟩
        cases h1
        rw [h2] at hf
        cases hf

/-- The result of walking transcript parts for tool-call emission: the
call ids emitted (in order), the dedup set afterwards, and whether the
walk halted at an unanswered clarification question (which returns from
`_process_message`). -/
structure ToolScan where
  emitted : List String
  seen : List String
  halted : Bool
deriving DecidableEq

/-- The inner part walk of the poll loop (lines 1543-1556 and 1945-1956):
skip non-tool parts and falsy or already-seen call keys, divert to the
question flow (halting emission) on an unanswered question tool-call,
and otherwise emit the tool-call event and only then add its call id to
the dedup set. -/
def processParts (seen : List String) : List Part → ToolScan
  | [] => ⟨[], seen, false⟩
  | p :: rest =>
    if p.ptype ≠ "tool" then processParts seen rest
    else
      match callKey p with
      | none => processParts seen rest
      | some k =>
        if k ∈ seen then processParts seen rest
        else if isUnansweredQuestion p then ⟨[], seen, true⟩
        else
          let r := processParts (k :: seen) rest
          ⟨k :: r.emitted, r.seen, r.halted⟩

/-- The outer message walk of one poll iteration (lines 1535-1542): skip
messages with falsy or baseline ids and non-assistant messages, walk the
parts of the rest, and stop the whole iteration when the part walk
halted at a question. -/
def processMessages (baseline : List String) (seen : List String) :
    List TranscriptMessage → ToolScan
  | [] => ⟨[], seen, false⟩
  | m :: rest =>
    match m.mid with
    | none => processMessages baseline seen rest
    | some i =>
      if i.isEmpty then processMessages baseline seen rest
      else if i ∈ baseline then processMessages baseline seen rest
      else if m.role ≠ some "assistant" then processMessages baseline seen rest
      else
        let r := processParts seen m.parts
        if r.halted then ⟨r.emitted, r.seen, true⟩
        else
          let r2 := processMessages baseline r.seen rest
          ⟨r.emitted ++ r2.emitted, r2.seen, r2.halted⟩

theorem processParts_invariant (ps : List Part) :
    ∀ seen : List String,
      (∀ k, k ∈ (processParts seen ps).seen ↔
        k ∈ seen ∨ k ∈ (processParts seen ps).emitted) ∧
      (processParts seen ps).emitted.Nodup ∧
      (∀ k ∈ (processParts seen ps).emitted, k ∉ seen) := by
  induction ps with
  | nil => intro seen; simp [processParts]
  | cons p rest ih =>
    intro seen
    by_cases hty : p.ptype ≠ "tool"
    · simpa [processParts, hty] using ih seen
    · cases hk : callKey p with
      | none => simpa [processParts, hty, hk] using ih seen
      | some k =>
        by_cases hmem : k ∈ seen
        · simpa [processParts, hty, hk, hmem] using ih seen
        · by_cases hq : isUnansweredQuestion p = true
          · simp [processParts, hty, hk, hmem, hq]
          · have heq : processParts seen (p :: rest) =
                ⟨k :: (processParts (k :: seen) rest).emitted,
                  (processParts (k :: seen) rest).seen,
                  (processParts (k :: seen) rest).halted⟩ := by
              simp [processParts, hty, hk, hmem, hq]
            obtain ⟨hseen, hnodup, hfresh⟩ := ih (k :: seen)
            rw [heq]
            refine ⟨?_, ?_, ?_⟩
            · intro x
              constructor
              · intro hx
                rcases (hseen x).mp hx with hx' | hx'
                · rcases List.mem_cons.mp hx' with h | h
                  · exact Or.inr (by simp [h])
                  · exact Or.inl h
                · exact Or.inr (by simp [hx'])
              · intro hx
                rcases hx with hx | hx
                · exact (hseen x).mpr (Or.inl (List.mem_cons_of_mem _ hx))
                · rcases List.mem_cons.mp hx with h | h
                  · exact (hseen x).mpr (Or.inl (by simp [h]))
                  · exact (hseen x).mpr (Or.inr h)
            · refine List.nodup_cons.mpr ⟨?_, hnodup⟩
              intro hcontra
              exact (hfresh k hcontra) (List.mem_cons_self _ _)
            · intro x hx
              rcases List.mem_cons.mp hx with h | h
              · subst h; exact hmem
              · intro hxseen
                exact (hfresh x h) (List.mem_cons_of_mem _ hxseen)

theorem processParts_replay (ps : List Part) :
    ∀ seen : List String,
      processParts (processParts seen ps).seen ps =
        ⟨[], (processParts seen ps).seen, (processParts seen ps).halted⟩ := by
  induction ps with
  | nil => intro seen; simp [processParts]
  | cons p rest ih =>
    intro seen
    by_cases hty : p.ptype ≠ "tool"
    · simpa [processParts, hty] using ih seen
    · cases hk : callKey p with
      | none => simpa [processParts, hty, hk] using ih seen
      | some k =>
        by_cases hmem : k ∈ seen
        · have hmono : k ∈ (processParts seen rest).seen :=
            ((processParts_invariant rest seen).1 k).mpr (Or.inl hmem)
          simpa [processParts, hty, hk, hmem, hmono] using ih seen
        · by_cases hq : isUnansweredQuestion p = true
          · simp [processParts, hty, hk, hmem, hq]
          · have hmono : k ∈ (processParts (k :: seen) rest).seen :=
              ((processParts_invariant rest (k :: seen)).1 k).mpr
                (Or.inl (List.mem_cons_self _ _))
            have heq : processParts seen (p :: rest) =
                ⟨k :: (processParts (k :: seen) rest).emitted,
                  (processParts (k :: seen) rest).seen,
                  (processParts (k :: seen) rest).halted⟩ := by
              simp [processParts, hty, hk, hmem, hq]
            rw [heq]
            simpa [processParts, hty, hk, hmono] using ih (k :: seen)

theorem processParts_superset (ps : List Part) :
    ∀ seen seen2 : List String, seen ⊆ seen2 →
      (processParts seen ps).halted = false →
      (processParts seen ps).seen ⊆ seen2 →
      processParts seen2 ps = ⟨[], seen2, false⟩ := by
  induction ps with
  | nil => intro seen seen2 _ _ _; simp [processParts]
  | cons p rest ih =>
    intro seen seen2 hsub hh hs
    by_cases hty : p.ptype ≠ "tool"
    · rw [show processParts seen2 (p :: rest) = processParts seen2 rest by
        simp [processParts, hty]]
      exact ih seen seen2 hsub (by simpa [processParts, hty] using hh)
        (by simpa [processParts, hty] using hs)
    · cases hk : callKey p with
      | none =>
        rw [show processParts seen2 (p :: rest) = processParts seen2 rest by
          simp [processParts, hty, hk]]
        exact ih seen seen2 hsub (by simpa [processParts, hty, hk] using hh)
          (by simpa [processParts, hty, hk] using hs)
      | some k =>
        by_cases hmem : k ∈ seen
        · have hmem2 : k ∈ seen2 := hsub hmem
          rw [show processParts seen2 (p :: rest) = processParts seen2 rest by
            simp [processParts, hty, hk, hmem2]]
          exact ih seen seen2 hsub (by simpa [processParts, hty, hk, hmem] using hh)
            (by simpa [processParts, hty, hk, hmem] using hs)
        · by_cases hq : isUnansweredQuestion p = true
          · exfalso
            have : (processParts seen (p :: rest)).halted = true := by
              simp [processParts, hty, hk, hmem, hq]
            rw [hh] at this
            cases this
          · have heq : processParts seen (p :: rest) =
                ⟨k :: (processParts (k :: seen) rest).emitted,
                  (processParts (k :: seen) rest).seen,
                  (processParts (k :: seen) rest).halted⟩ := by
              simp [processParts, hty, hk, hmem, hq]
            rw [heq] at hh hs
            have hksub : k :: seen ⊆ seen2 := by
              intro x hx
              rcases List.mem_cons.mp hx with h | h
              · rw [h]
                refine hs ?_
                exact ((processParts_invariant rest (k :: seen)).1 k).mpr
                  (Or.inl (List.mem_cons_self _ _))
              · exact hsub h
            have hmem2 : k ∈ seen2 := hksub (List.mem_cons_self _ _)
            rw [show processParts seen2 (p :: rest) = processParts seen2 rest by
              simp [processParts, hty, hk, hmem2]]
            exact ih (k :: seen) seen2 hksub hh hs

theorem processMessages_invariant (msgs : List TranscriptMessage) :
    ∀ baseline seen : List String,
      (∀ k, k ∈ (processMessages baseline seen msgs).seen ↔
        k ∈ seen ∨ k ∈ (processMessages baseline seen msgs).emitted) ∧
      (processMessages baseline seen msgs).emitted.Nodup ∧
      (∀ k ∈ (processMessages baseline seen msgs).emitted, k ∉ seen) := by
  induction msgs with
  | nil => intro baseline seen; simp [processMessages]
  | cons m rest ih =>
    intro baseline seen
    cases hmid : m.mid with
    | none => simpa [processMessages, hmid] using ih baseline seen
    | some i =>
      by_cases hie : i.isEmpty
      · simpa [processMessages, hmid, hie] using ih baseline seen
      · by_cases hib : i ∈ baseline
        · simpa [processMessages, hmid, hie, hib] using ih baseline seen
        · by_cases hrole : m.role ≠ some "assistant"
          · simpa [processMessages, hmid, hie, hib, hrole] using ih baseline seen
          · obtain ⟨pseen, pnodup, pfresh⟩ := processParts_invariant m.parts seen
            by_cases hhalt : (processParts seen m.parts).halted
            · have heq : processMessages baseline seen (m :: rest) =
                  ⟨(processParts seen m.parts).emitted,
                    (processParts seen m.parts).seen, true⟩ := by
                simp [processMessages, hmid, hie, hib, hrole, hhalt]
              rw [heq]
              exact ⟨pseen, pnodup, pfresh⟩
            · obtain ⟨mseen, mnodup, mfresh⟩ :=
                ih baseline (processParts seen m.parts).seen
              have heq : processMessages baseline seen (m :: rest) =
                  ⟨(processParts seen m.parts).emitted ++
                      (processMessages baseline (processParts seen m.parts).seen rest).emitted,
                    (processMessages baseline (processParts seen m.parts).seen rest).seen,
                    (processMessages baseline (processParts seen m.parts).seen rest).halted⟩ := by
                simp [processMessages, hmid, hie, hib, hrole, hhalt]
              rw [heq]
              refine ⟨?_, ?_, ?_⟩
              · intro x
                rw [mseen x, pseen x, List.mem_append]
                tauto
              · refine List.Nodup.append pnodup mnodup ?_
                intro x hx hx2
                exact mfresh x hx2 ((pseen x).mpr (Or.inr hx))
              · intro x hx
                rcases List.mem_append.mp hx with h | h
                · exact pfresh x h
                · intro hxseen
                  exact mfresh x h ((pseen x).mpr (Or.inl hxseen))

theorem processMessages_replay (msgs : List TranscriptMessage) :
    ∀ baseline seen : List String,
      processMessages baseline (processMessages baseline seen msgs).seen msgs =
        ⟨[], (processMessages baseline seen msgs).seen,
          (processMessages baseline seen msgs).halted⟩ := by
  induction msgs with
  | nil => intro baseline seen; simp [processMessages]
  | cons m rest ih =>
    intro baseline seen
    cases hmid : m.mid with
    | none => simpa [processMessages, hmid] using ih baseline seen
    | some i =>
      by_cases hie : i.isEmpty
      · simpa [processMessages, hmid, hie] using ih baseline seen
      · by_cases hib : i ∈ baseline
        · simpa [processMessages, hmid, hie, hib] using ih baseline seen
        · by_cases hrole : m.role ≠ some "assistant"
          · simpa [processMessages, hmid, hie, hib, hrole] using ih baseline seen
          · by_cases hhalt : (processParts seen m.parts).halted
            · have heq : processMessages baseline seen (m :: rest) =
                  ⟨(processParts seen m.parts).emitted,
                    (processParts seen m.parts).seen, true⟩ := by
                simp [processMessages, hmid, hie, hib, hrole, hhalt]
              rw [heq]
              have hre := processParts_replay m.parts seen
              simp [processMessages, hmid, hie, hib, hrole, hre, hhalt]
            · have heq : processMessages baseline seen (m :: rest) =
                  ⟨(processParts seen m.parts).emitted ++
                      (processMessages baseline (processParts seen m.parts).seen rest).emitted,
                    (processMessages baseline (processParts seen m.parts).seen rest).seen,
                    (processMessages baseline (processParts seen m.parts).seen rest).halted⟩ := by
                simp [processMessages, hmid, hie, hib, hrole, hhalt]
              rw [heq]
              have hpsub : (processParts seen m.parts).seen ⊆
                  (processMessages baseline (processParts seen m.parts).seen rest).seen := by
                intro x hx
                exact ((processMessages_invariant rest baseline
                  (processParts seen m.parts).seen).1 x).mpr (Or.inl hx)
              have hsub : seen ⊆
                  (processMessages baseline (processParts seen m.parts).seen rest).seen := by
                intro x hx
                exact hpsub (((processParts_invariant m.parts seen).1 x).mpr (Or.inl hx))
              have hsup := processParts_superset m.parts seen
                (processMessages baseline (processParts seen m.parts).seen rest).seen
                hsub (by simpa using hhalt) hpsub
              have hrest := ih baseline (processParts seen m.parts).seen
              simp [processMessages, hmid, hie, hib, hrole, hsup, hrest]

/-- C4: within a polling loop, a tool-call part whose call identifier is
already in the dedup set is never emitted again: the emitted call ids of
one pass are pairwise distinct and disjoint from the incoming dedup set,
a call id ends up in the dedup set exactly when it was already there or
its tool-call event was emitted in this pass, and re-scanning an
unchanged transcript with the resulting dedup set emits nothing. -/
theorem toolcall_dedup_spec (baseline seen : List String)
    (msgs : List TranscriptMessage) :
    (processMessages baseline seen msgs).emitted.Nodup ∧
    (∀ k ∈ (processMessages baseline seen msgs).emitted, k ∉ seen) ∧
    (∀ k, k ∈ (processMessages baseline seen msgs).seen ↔
        k ∈ seen ∨ k ∈ (processMessages baseline seen msgs).emitted) ∧
    processMessages baseline (processMessages baseline seen msgs).seen msgs =
      ⟨[], (processMessages baseline seen msgs).seen,
        (processMessages baseline seen msgs).halted⟩ := by
  obtain ⟨hseen, hnodup, hfresh⟩ := processMessages_invariant msgs baseline seen
  exact ⟨hnodup, hfresh, hseen, processMessages_replay msgs baseline seen⟩

/-! ## QuestionFlowManager — rendering strategy and answer payloads -/

/-- How a detected question is surfaced to the user. -/
inductive QuestionRendering
  | inlineButtons
  | modalButton
  | plainText
deriving DecidableEq

/-- The rendering decision of `_process_message` (lines 1848 and
1889-1895): multi-select, multi-question or more than 10 options go to
the richer surface (a modal-opening button) when the client supports
buttons; a single single-select question with at most 10 options uses
compact inline choice buttons when the client supports them; otherwise
plain text. -/
def chooseQuestionRendering (multiple : Bool) (questionCount : Nat)
    (optionCount : Nat) (hasButtonSupport : Bool) : QuestionRendering :=
  if multiple || questionCount != 1 || decide (10 < optionCount) then
    if hasButtonSupport then QuestionRendering.modalButton
    else QuestionRendering.plainText
  else
    if questionCount == 1 && !multiple && decide (optionCount ≤ 10) && hasButtonSupport
    then QuestionRendering.inlineButtons
    else QuestionRendering.plainText

/-- C7 counterexample: a single single-select question with 3 option
labels — which the claim says always uses compact inline controls — is
rendered as plain text when the chat client lacks inline-button support,
and over-budget question sets are likewise not routed to the richer
surface then. -/
theorem choose_question_rendering_counterexample :
    (1 = 1 ∧ (false : Bool) = false ∧ 3 ≤ 10) ∧
    chooseQuestionRendering false 1 3 false = QuestionRendering.plainText ∧
    chooseQuestionRendering false 1 12 false = QuestionRendering.plainText := by
  decide

theorem chooseQuestionRendering_cases (multiple : Bool) (qc oc : Nat) (hb : Bool) :
    chooseQuestionRendering multiple qc oc hb =
      if multiple = true ∨ qc ≠ 1 ∨ 10 < oc then
        if hb = true then QuestionRendering.modalButton else QuestionRendering.plainText
      else
        if hb = true then QuestionRendering.inlineButtons else QuestionRendering.plainText := by
  unfold chooseQuestionRendering
  by_cases h1 : multiple = true ∨ qc ≠ 1 ∨ 10 < oc
  · have hcond : (multiple || qc != 1 || decide (10 < oc)) = true := by
      rcases h1 with h | h | h
      · simp [h]
      · simp [h]
      · simp [h]
    rw [if_pos h1]
    simp only [hcond]
    cases hb <;> simp
  · rw [if_neg h1]
    push_neg at h1
    obtain ⟨hm, hq, ho⟩ := h1
    have hm' : multiple = false := by simpa using hm
    have hcond : (multiple || qc != 1 || decide (10 < oc)) = false := by
      simp [hm', hq, Nat.not_lt.mpr ho]
    simp only [hcond]
    have hinner : (qc == 1 && !multiple && decide (oc ≤ 10) && hb) = hb := by
      simp [hm', hq, ho]
    simp only [hinner]
    cases hb <;> simp

/-- C7 (amended): when the chat client supports inline buttons, compact
inline choice controls are used exactly for a single non-multi-select
question with at most 10 option labels, and every other question set is
routed to the richer modal surface; without button support the question
falls back to plain text, so inline controls imply button support. -/
theorem choose_question_rendering_amended (multiple : Bool)
    (questionCount optionCount : Nat) :
    (chooseQuestionRendering multiple questionCount optionCount true =
        QuestionRendering.inlineButtons ↔
      (multiple = false ∧ questionCount = 1 ∧ optionCount ≤ 10)) ∧
    (chooseQuestionRendering multiple questionCount optionCount true =
        QuestionRendering.modalButton ↔
      (multiple = true ∨ questionCount ≠ 1 ∨ 10 < optionCount)) ∧
    (∀ hb : Bool, chooseQuestionRendering multiple questionCount optionCount hb =
        QuestionRendering.inlineButtons → hb = true) := by
  by_cases h1 : multiple = true ∨ questionCount ≠ 1 ∨ 10 < optionCount
  · have hr : ∀ hb : Bool, chooseQuestionRendering multiple questionCount optionCount hb =
        (if hb = true then QuestionRendering.modalButton else QuestionRendering.plainText) := by
      intro hb
      rw [chooseQuestionRendering_cases, if_pos h1]
    have hnot : ¬(multiple = false ∧ questionCount = 1 ∧ optionCount ≤ 10) := by
      rintro ⟨hm, hq, ho⟩
      rcases h1 with h | h | h
      · rw [hm] at h; cases h
      · exact h hq
      · omega
    refine ⟨?_, ?_, ?_⟩
    · rw [hr true]
      simp only [if_pos rfl]
      exact ⟨fun h => absurd h (by decide), fun h => absurd h hnot⟩
    · rw [hr true]
      simp only [if_pos rfl]
      exact ⟨fun _ => h1, fun _ => rfl⟩
    · intro hb h
      rw [hr hb] at h
      cases hb
      · exact absurd h (by decide)
      · rfl
  · have h1' := h1
    push_neg at h1'
    obtain ⟨hm, hq, ho⟩ := h1'
    have hm' : multiple = false := by simpa using hm
    have hr : ∀ hb : Bool, chooseQuestionRendering multiple questionCount optionCount hb =
        (if hb = true then QuestionRendering.inlineButtons else QuestionRendering.plainText) := by
      intro hb
      rw [chooseQuestionRendering_cases, if_neg h1]
    refine ⟨?_, ?_, ?_⟩
    · rw [hr true]
      simp only [if_pos rfl]
      exact ⟨fun _ => ⟨hm', hq, ho⟩, fun _ => rfl⟩
    · rw [hr true]
      simp only [if_pos rfl]
      exact ⟨fun h => absurd h (by decide), fun h => absurd h h1⟩
    · intro hb h
      rw [hr hb] at h
      cases hb
      · exact absurd h (by decide)
      · rfl

/-- `question_count_int = max(1, int(question_count))`, defaulting to 1
when the field is absent or unparsable; negative values are clamped. -/
def questionCountInt (qc : Option Int) : Nat :=
  max 1 (match qc with | none => 1 | some n => n.toNat)

/-- The answers-payload construction of `_process_question_answer`
(lines 1225-1231): a structured modal payload is truncated to the
question count and padded with empty lists; otherwise the single answer
text is replicated as one single-element list per question. -/
def buildAnswersPayload (modalAnswers : Option (List (List String)))
    (answerText : String) (n : Nat) : List (List String) :=
  match modalAnswers with
  | some a =>
    let padded := a.take n
    padded ++ List.replicate (n - padded.length) []
  | none => List.replicate n [answerText]

/-- Inline-choice resolution (lines 1139-1145): button `k` maps to the
stripped label of the `k`-th (1-based) option when in range. -/
def resolveChoiceAnswer (optionLabels : List String) (choice : Int) :
    Option String :=
  if 0 ≤ choice - 1 ∧ (choice - 1).toNat < optionLabels.length then
    (optionLabels.get? (choice - 1).toNat).map String.trim
  else none

/-- C8: the submitted payload always has exactly the expected number of
sub-answers: a modal payload is truncated to the question count and
padded with empty lists, a free-text or numbered-choice answer is
replicated as one single-element list per question, and choosing inline
option `i+1` for a single question submits exactly the one-element list
of the one-element list holding that option's stripped label. -/
theorem build_answers_payload_spec (modalAnswers : Option (List (List String)))
    (answerText : String) (qc : Option Int) :
    (buildAnswersPayload modalAnswers answerText (questionCountInt qc)).length =
      questionCountInt qc ∧
    (∀ a, modalAnswers = some a →
      buildAnswersPayload modalAnswers answerText (questionCountInt qc) =
        a.take (questionCountInt qc) ++
          List.replicate (questionCountInt qc - (a.take (questionCountInt qc)).length) []) ∧
    (modalAnswers = none →
      buildAnswersPayload modalAnswers answerText (questionCountInt qc) =
        List.replicate (questionCountInt qc) [answerText]) ∧
    ((∀ labels : List String, ∀ i : Nat, i < labels.length →
      resolveChoiceAnswer labels ((i : Int) + 1) = (labels.get? i).map String.trim) ∧
     (∀ t : String, buildAnswersPayload none t 1 = [[t]])) := by
  refine ⟨?_, ?_, ?_, ?_, ?_⟩
  · cases modalAnswers with
    | none => simp [buildAnswersPayload]
    | some a =>
      simp only [buildAnswersPayload, List.length_append, List.length_replicate,
        List.length_take]
      omega
  · intro a ha
    subst ha
    rfl
  · intro hnone
    subst hnone
    rfl
  · intro labels i h
    have htn : ((i : Int) + 1 - 1).toNat = i := by omega
    rw [resolveChoiceAnswer, if_pos ⟨by omega, by rw [htn]; exact h⟩, htn]
  · intro t
    rfl

/-! ## SessionCoordinator — `OpenCodeAgent.handle_message`,
`handle_stop` and `_process_question_answer` bookkeeping -/

/-- A local asyncio task handle: its identity and whether it is done. -/
structure TaskRef where
  tid : Nat
  done : Bool
deriving DecidableEq

/-- The pending-question payload fields the answer path reads. -/
structure PendingQuestion where
  questionId : Option String
  callId : Option String
  messageId : Option String
  optionLabels : List String
  questionCount : Option Int
deriving DecidableEq

/-- The mutable per-agent maps: `_active_requests`, `_request_sessions`
(session id, working directory, settings key) and `_pending_questions`,
each keyed by the base session id (the thread). Dictionaries hold at
most one value per key by construction. -/
structure AgentState where
  activeRequests : String → Option TaskRef
  requestSessions : String → Option (String × String × String)
  pendingQuestions : String → Option PendingQuestion

/-- Which coroutine the locked section launched as the thread's task. -/
inductive InstalledTask
  | processMessage (tid : Nat)
  | processQuestionAnswer (tid : Nat)
deriving DecidableEq

/-- The observable outcome of the locked section of `handle_message`. -/
structure LockedStep where
  state : AgentState
  installed : Option InstalledTask
  cancelledExisting : Bool
  abortedExisting : Bool
  openedModal : Bool

/-- The locked section of `OpenCodeAgent.handle_message` (lines 977-1037):
classify the message against the pending question, cancel (and for
non-question messages also abort and await) any running prior task, and
install the new task in the in-flight map — except that a modal-open
action with modal support only opens the modal, and a modal-open action
without modal support falls back to a fresh `_process_message` task. -/
def handleMessageLocked (st : AgentState) (thread msg : String)
    (hasModalSupport : Bool) (newTid : Nat) : LockedStep :=
  let pending := st.pendingQuestions thread
  let isModalOpen := pending.isSome && msg = "opencode_question:open_modal"
  let isQuestionAction := pending.isSome && strStartsWith msg ("opencode_question:")
  let existingRunning :=
    match st.activeRequests thread with
    | some t => !t.done
    | none => false
  let (cancelled, aborted) :=
    if existingRunning then
      if isModalOpen then (false, false)
      else if isQuestionAction then (true, false)
      else (true, (st.requestSessions thread).isSome)
    else (false, false)
  if isModalOpen then
    if hasModalSupport then
      ⟨st, none, cancelled, aborted, true⟩
    else
      ⟨{ st with activeRequests :=
          fun k => if k = thread then some ⟨newTid, false⟩ else st.activeRequests k },
        some (InstalledTask.processMessage newTid), cancelled, aborted, false⟩
  else if pending.isSome then
    ⟨{ st with
        activeRequests :=
          fun k => if k = thread then some ⟨newTid, false⟩ else st.activeRequests k,
        pendingQuestions :=
          fun k => if k = thread then none else st.pendingQuestions k },
      some (InstalledTask.processQuestionAnswer newTid), cancelled, aborted, false⟩
  else
    ⟨{ st with activeRequests :=
        fun k => if k = thread then some ⟨newTid, false⟩ else st.activeRequests k },
      some (InstalledTask.processMessage newTid), cancelled, aborted, false⟩

/-- A concrete pending-question payload for counterexamples. -/
def examplePending : PendingQuestion :=
  ⟨some "q1", some "c1", some "m1", ["a", "b"], some 1⟩

/-- A concrete agent state: thread `"t"` has a running task, a
registered request session and a pending question. -/
def exampleBusyState : AgentState :=
  ⟨fun _ => some ⟨1, false⟩,
   fun _ => some ("s1", "/w", "key"),
   fun _ => some examplePending⟩

/-- C1 counterexample: a modal-open question action on a thread whose
prior task is still running and registered, handled by a client without
modal support, installs a fresh task without cancelling the running
one — refuting the claim that a new task is never installed without
first cancelling the registered non-done task. -/
theorem handle_message_locked_counterexample :
    (exampleBusyState.activeRequests "t" = some ⟨1, false⟩) ∧
    (handleMessageLocked exampleBusyState "t" "opencode_question:open_modal" false 2).installed =
      some (InstalledTask.processMessage 2) ∧
    (handleMessageLocked exampleBusyState "t" "opencode_question:open_modal" false 2).cancelledExisting =
      false := by
  refine ⟨rfl, ?_, ?_⟩ <;>
    simp [handleMessageLocked, exampleBusyState, examplePending]

/-- C1 (amended): under the per-thread lock, whenever `handle_message`
installs a new task while a non-done task is registered for the thread,
it has first cancelled the existing task — except in the single fallback
where a modal-open question action meets a client without modal support;
a modal-open action with modal support installs nothing; and a message
that is not a pending-question action additionally aborts the remote
execution whenever a request session is registered for the thread.
The in-flight map keeps at most one entry per thread throughout, since
installation replaces the thread's single slot. -/
theorem handle_message_locked_amended (st : AgentState) (thread msg : String)
    (hasModalSupport : Bool) (newTid : Nat) (t : TaskRef)
    (hex : st.activeRequests thread = some t) (hrun : t.done = false) :
    ((handleMessageLocked st thread msg hasModalSupport newTid).installed.isSome →
      ((st.pendingQuestions thread).isSome ∧ msg = "opencode_question:open_modal" ∧
        hasModalSupport = false) ∨
      (handleMessageLocked st thread msg hasModalSupport newTid).cancelledExisting = true) ∧
    (((st.pendingQuestions thread).isSome && strStartsWith msg ("opencode_question:")) = false →
      (st.requestSessions thread).isSome →
      (handleMessageLocked st thread msg hasModalSupport newTid).abortedExisting = true) ∧
    ((st.pendingQuestions thread).isSome → msg = "opencode_question:open_modal" →
      hasModalSupport = true →
      (handleMessageLocked st thread msg hasModalSupport newTid).installed = none) := by
  have hrunning :
      (match st.activeRequests thread with
        | some t => !t.done
        | none => false) = true := by
    rw [hex]
    simp [hrun]
  by_cases hpend : (st.pendingQuestions thread).isSome
  · by_cases hmodal : msg = "opencode_question:open_modal"
    · have hstarts : strStartsWith msg ("opencode_question:") = true := by
        rw [hmodal]
        decide
      cases hasModalSupport with
      | true =>
        refine ⟨?_, ?_, ?_⟩
        · intro hcontra
          exfalso
          simp [handleMessageLocked, hpend, hmodal, hrunning] at hcontra
        · intro hcontra _
          rw [hpend, hstarts] at hcontra
          cases hcontra
        · intro _ _ _
          simp [handleMessageLocked, hpend, hmodal, hrunning]
      | false =>
        refine ⟨?_, ?_, ?_⟩
        · intro _
          exact Or.inl ⟨hpend, hmodal, rfl⟩
        · intro hcontra _
          rw [hpend, hstarts] at hcontra
          cases hcontra
        · intro _ _ hcontra
          cases hcontra
    · by_cases hqa : strStartsWith msg ("opencode_question:") = true
      · refine ⟨?_, ?_, ?_⟩
        · intro _
          refine Or.inr ?_
          simp [handleMessageLocked, hpend, hmodal, hqa, hrunning]
        · intro hcontra _
          rw [hpend, hqa] at hcontra
          cases hcontra
        · intro _ hcontra
          exact absurd hcontra hmodal
      · refine ⟨?_, ?_, ?_⟩
        · intro _
          refine Or.inr ?_
          simp [handleMessageLocked, hpend, hmodal, hqa, hrunning]
        · intro _ hreq
          simp [handleMessageLocked, hpend, hmodal, hqa, hrunning, hreq]
        · intro _ hcontra
          exact absurd hcontra hmodal
  · have hpend' : (st.pendingQuestions thread).isSome = false := by
      simpa using hpend
    refine ⟨?_, ?_, ?_⟩
    · intro _
      refine Or.inr ?_
      simp [handleMessageLocked, hpend', hrunning]
    · intro _ hreq
      simp [handleMessageLocked, hpend', hrunning, hreq]
    · intro hcontra
      rw [hpend'] at hcontra
      cases hcontra

/-- Witness for C1 (amended) at a running, registered, pending-free
thread receiving an ordinary message. -/
theorem handle_message_locked_amended_witness :
    ((handleMessageLocked
        ⟨fun _ => some ⟨1, false⟩, fun _ => some ("s1", "/w", "key"), fun _ => none⟩
        "t" "hello" true 2).installed.isSome →
      (((⟨fun _ => some ⟨1, false⟩, fun _ => some ("s1", "/w", "key"), fun _ => none⟩ :
          AgentState).pendingQuestions "t").isSome ∧ "hello" = "opencode_question:open_modal" ∧
        true = false) ∨
      (handleMessageLocked
        ⟨fun _ => some ⟨1, false⟩, fun _ => some ("s1", "/w", "key"), fun _ => none⟩
        "t" "hello" true 2).cancelledExisting = true) ∧
    ((((⟨fun _ => some ⟨1, false⟩, fun _ => some ("s1", "/w", "key"), fun _ => none⟩ :
          AgentState).pendingQuestions "t").isSome &&
        strStartsWith "hello" ("opencode_question:")) = false →
      ((⟨fun _ => some ⟨1, false⟩, fun _ => some ("s1", "/w", "key"), fun _ => none⟩ :
          AgentState).requestSessions "t").isSome →
      (handleMessageLocked
        ⟨fun _ => some ⟨1, false⟩, fun _ => some ("s1", "/w", "key"), fun _ => none⟩
        "t" "hello" true 2).abortedExisting = true) ∧
    (((⟨fun _ => some ⟨1, false⟩, fun _ => some ("s1", "/w", "key"), fun _ => none⟩ :
          AgentState).pendingQuestions "t").isSome → "hello" = "opencode_question:open_modal" →
      true = true →
      (handleMessageLocked
        ⟨fun _ => some ⟨1, false⟩, fun _ => some ("s1", "/w", "key"), fun _ => none⟩
        "t" "hello" true 2).installed = none) :=
  handle_message_locked_amended _ "t" "hello" true 2 ⟨1, false⟩ rfl rfl

/-- How the awaited request task ended. -/
inductive TaskOutcome
  | completed
  | errored
  | cancelled
deriving DecidableEq

/-- The `finally` cleanup of `handle_message` (lines 1051-1054): when the
thread's registered task is still this one, remove the thread's entries
from both the in-flight map and the request-session registry. -/
def handleMessageCleanup (st : AgentState) (thread : String) (tid : Nat) : AgentState :=
  if (st.activeRequests thread).map TaskRef.tid = some tid then
    { st with
        activeRequests := fun k => if k = thread then none else st.activeRequests k,
        requestSessions := fun k => if k = thread then none else st.requestSessions k }
  else st

/-- The await-and-cleanup epilogue of `handle_message` (lines 1046-1054):
the `finally` clause runs the cleanup no matter how the awaited task
ended — normal completion, error, or cancellation. -/
def handleMessageEpilogue (outcome : TaskOutcome) (st : AgentState)
    (thread : String) (tid : Nat) : AgentState :=
  match outcome with
  | TaskOutcome.completed => handleMessageCleanup st thread tid
  | TaskOutcome.errored => handleMessageCleanup st thread tid
  | TaskOutcome.cancelled => handleMessageCleanup st thread tid

/-- `OpenCodeAgent.handle_stop` (lines 2058-2083) composed with the
awaiting `handle_message` epilogue: a missing or done task is a no-op
returning `false`; otherwise the remote abort is attempted (its result —
including failure, which `abort_session` swallows — is never consulted),
the task is cancelled and awaited, and the cancelled task's epilogue
removes the thread's bookkeeping. -/
def handleStop (st : AgentState) (thread : String) (abortSucceeded : Bool) :
    AgentState × Bool :=
  match st.activeRequests thread with
  | none => (st, false)
  | some t =>
    if t.done then (st, false)
    else (handleMessageEpilogue TaskOutcome.cancelled st thread t.tid, true)

/-- C3: whenever the request task registered for a thread finishes —
normal completion, error, or cancellation — the thread's entries are
removed from both the in-flight map and the request-session registry
before `handle_message` returns; in particular a `/stop` on a running
task removes both entries and reports success regardless of whether the
remote abort call succeeded. -/
theorem handle_message_cleanup_spec (st : AgentState) (thread : String)
    (t : TaskRef) (outcome : TaskOutcome) (abortSucceeded : Bool)
    (hreg : st.activeRequests thread = some t) :
    ((handleMessageEpilogue outcome st thread t.tid).activeRequests thread = none ∧
     (handleMessageEpilogue outcome st thread t.tid).requestSessions thread = none) ∧
    (t.done = false →
      (handleStop st thread abortSucceeded).1.activeRequests thread = none ∧
      (handleStop st thread abortSucceeded).1.requestSessions thread = none ∧
      (handleStop st thread abortSucceeded).2 = true) := by
  have hclean :
      (handleMessageCleanup st thread t.tid).activeRequests thread = none ∧
      (handleMessageCleanup st thread t.tid).requestSessions thread = none := by
    unfold handleMessageCleanup
    rw [hreg]
    simp
  constructor
  · cases outcome <;> exact hclean
  · intro hdone
    unfold handleStop
    rw [hreg]
    simp only [hdone, if_false, Bool.false_eq_true]
    exact ⟨hclean.1, hclean.2, trivial⟩

/-- Witness for C3 on a concrete busy state, an errored outcome and a
failed remote abort. -/
theorem handle_message_cleanup_spec_witness :
    (((handleMessageEpilogue TaskOutcome.errored exampleBusyState "t" 1).activeRequests "t" =
        none ∧
      (handleMessageEpilogue TaskOutcome.errored exampleBusyState "t" 1).requestSessions "t" =
        none) ∧
     ((⟨1, false⟩ : TaskRef).done = false →
       (handleStop exampleBusyState "t" false).1.activeRequests "t" = none ∧
       (handleStop exampleBusyState "t" false).1.requestSessions "t" = none ∧
       (handleStop exampleBusyState "t" false).2 = true)) :=
  handle_message_cleanup_spec exampleBusyState "t" ⟨1, false⟩ TaskOutcome.errored false rfl

/-! ## Question answer submission — `_process_question_answer` -/

/-- How the `reply_question` call ended: it raised, the backend returned
a non-accepting (falsy) result, or it was accepted. -/
inductive ReplyOutcome
  | raised
  | rejected
  | accepted
deriving DecidableEq

/-- The user-visible outcome of `_process_question_answer`. -/
inductive QAResult
  | missingContext
  | emptyAnswer
  | unresolvedId
  | submitFailed
  | notAccepted
  | success
deriving DecidableEq

/-- The bookkeeping core of `OpenCodeAgent._process_question_answer`
(lines 1128-1277): with missing session context or an empty answer the
call reports and returns; otherwise the pending entry is popped, the
question id is taken from the pending payload or — when that is falsy —
from the side-channel fallback lookup, an unresolved id re-arms the
pending state, a raised or non-accepting reply re-arms the pending
state, and only an accepted reply leaves the pending state cleared. -/
def processQuestionAnswer (pmap : String → Option PendingQuestion) (thread : String)
    (pending : PendingQuestion) (hasContext : Bool) (answerText : String)
    (fallbackId : Option String) (reply : ReplyOutcome) :
    (String → Option PendingQuestion) × QAResult :=
  if hasContext = false then (pmap, QAResult.missingContext)
  else if answerText.isEmpty then (pmap, QAResult.emptyAnswer)
  else
    let pmap1 := fun k => if k = thread then none else pmap k
    let qid := pyOrStr pending.questionId fallbackId
    if truthyStr qid = false then
      (fun k => if k = thread then some pending else pmap1 k, QAResult.unresolvedId)
    else
      match reply with
      | ReplyOutcome.raised =>
        (fun k => if k = thread then some pending else pmap1 k, QAResult.submitFailed)
      | ReplyOutcome.rejected =>
        (fun k => if k = thread then some pending else pmap1 k, QAResult.notAccepted)
      | ReplyOutcome.accepted => (pmap1, QAResult.success)

/-- C9: with a non-empty answer and session context present, an
unresolvable question id (pending id falsy and every fallback lookup
failing) re-arms the pending state and reports an error; a raised reply
call or a non-accepting backend result re-arms the pending state with
its full context and reports the error; and the pending state is left
cleared exactly on successful submission. -/
theorem process_question_answer_spec (pmap : String → Option PendingQuestion)
    (thread : String) (pending : PendingQuestion) (answerText : String)
    (fallbackId : Option String) (reply : ReplyOutcome)
    (hans : answerText.isEmpty = false) :
    (truthyStr (pyOrStr pending.questionId fallbackId) = false →
      (processQuestionAnswer pmap thread pending true answerText fallbackId reply).1 thread =
        some pending ∧
      (processQuestionAnswer pmap thread pending true answerText fallbackId reply).2 =
        QAResult.unresolvedId) ∧
    (truthyStr (pyOrStr pending.questionId fallbackId) = true →
      ((reply = ReplyOutcome.raised →
        (processQuestionAnswer pmap thread pending true answerText fallbackId reply).1 thread =
          some pending ∧
        (processQuestionAnswer pmap thread pending true answerText fallbackId reply).2 =
          QAResult.submitFailed) ∧
       (reply = ReplyOutcome.rejected →
        (processQuestionAnswer pmap thread pending true answerText fallbackId reply).1 thread =
          some pending ∧
        (processQuestionAnswer pmap thread pending true answerText fallbackId reply).2 =
          QAResult.notAccepted) ∧
       (reply = ReplyOutcome.accepted →
        (processQuestionAnswer pmap thread pending true answerText fallbackId reply).1 thread =
          none ∧
        (processQuestionAnswer pmap thread pending true answerText fallbackId reply).2 =
          QAResult.success))) := by
  constructor
  · intro hqid
    unfold processQuestionAnswer
    simp [hans, hqid]
  · intro hqid
    refine ⟨fun hr => ?_, fun hr => ?_, fun hr => ?_⟩ <;>
      subst hr <;>
      · unfold processQuestionAnswer
        simp [hans, hqid]

/-- Witness for C9: a concrete pending payload with a resolvable id and
a rejected reply is re-armed, and with an accepted reply is cleared. -/
theorem process_question_answer_spec_witness :
    (truthyStr (pyOrStr examplePending.questionId none) = false →
      (processQuestionAnswer (fun _ => none) "t" examplePending true "yes" none
          ReplyOutcome.rejected).1 "t" = some examplePending ∧
      (processQuestionAnswer (fun _ => none) "t" examplePending true "yes" none
          ReplyOutcome.rejected).2 = QAResult.unresolvedId) ∧
    (truthyStr (pyOrStr examplePending.questionId none) = true →
      ((ReplyOutcome.rejected = ReplyOutcome.raised →
        (processQuestionAnswer (fun _ => none) "t" examplePending true "yes" none
            ReplyOutcome.rejected).1 "t" = some examplePending ∧
        (processQuestionAnswer (fun _ => none) "t" examplePending true "yes" none
            ReplyOutcome.rejected).2 = QAResult.submitFailed) ∧
       (ReplyOutcome.rejected = ReplyOutcome.rejected →
        (processQuestionAnswer (fun _ => none) "t" examplePending true "yes" none
            ReplyOutcome.rejected).1 "t" = some examplePending ∧
        (processQuestionAnswer (fun _ => none) "t" examplePending true "yes" none
            ReplyOutcome.rejected).2 = QAResult.notAccepted) ∧
       (ReplyOutcome.rejected = ReplyOutcome.accepted →
        (processQuestionAnswer (fun _ => none) "t" examplePending true "yes" none
            ReplyOutcome.rejected).1 "t" = none ∧
        (processQuestionAnswer (fun _ => none) "t" examplePending true "yes" none
            ReplyOutcome.rejected).2 = QAResult.success))) :=
  process_question_answer_spec (fun _ => none) "t" examplePending "yes" none
    ReplyOutcome.rejected (by decide)

/-! ## ProcessSupervisor — `OpenCodeServerManager.ensure_running` -/

/-- The environment one `ensure_running` call observes, in evaluation
order: whether the health endpoint answers healthy, the two port
availability probes (before and after the termination pass), the
matching `opencode serve` pids found on the port, and whether the
subprocess spawn-and-health-poll succeeds. -/
structure ServerEnv where
  healthy : Bool
  portAvailableAtFirstCheck : Bool
  portAvailableAfterTermination : Bool
  matchingServePids : List Nat
  startSucceeds : Bool

/-- How `ensure_running` ends. -/
inductive EnsureOutcome
  | reused
  | portInUse
  | started
  | startFailed
deriving DecidableEq

/-- The observable result of `ensure_running`: the outcome, whether a
new subprocess was spawned, and which pids were terminated. -/
structure EnsureResult where
  outcome : EnsureOutcome
  spawned : Bool
  terminated : List Nat
deriving DecidableEq

/-- `OpenCodeServerManager.ensure_running` (lines 338-368), inside its
instance lock: a healthy server is reused without spawning; otherwise,
when the first availability probe fails, every matching unhealthy
`opencode serve` pid on the port is terminated; when the port is still
unavailable afterwards the explicit port-in-use error is raised; and
otherwise the subprocess is spawned and health-polled. -/
def ensureRunning (env : ServerEnv) : EnsureResult :=
  if env.healthy then ⟨EnsureOutcome.reused, false, []⟩
  else
    let terminated :=
      if env.portAvailableAtFirstCheck then [] else env.matchingServePids
    if env.portAvailableAfterTermination = false then
      ⟨EnsureOutcome.portInUse, false, terminated⟩
    else if env.startSucceeds then ⟨EnsureOutcome.started, true, terminated⟩
    else ⟨EnsureOutcome.startFailed, true, terminated⟩

/-- C6: `ensure_running` raises the explicit port-in-use error exactly
when no healthy server answers the health endpoint and the port is still
unavailable after the termination pass over matching unhealthy
processes; and when a healthy instance answers, the endpoint is reused
without spawning any subprocess or terminating anything. -/
theorem ensure_running_port_in_use_spec (env : ServerEnv) :
    ((ensureRunning env).outcome = EnsureOutcome.portInUse ↔
      (env.healthy = false ∧ env.portAvailableAfterTermination = false)) ∧
    (env.healthy = true →
      ensureRunning env = ⟨EnsureOutcome.reused, false, []⟩) ∧
    ((ensureRunning env).outcome = EnsureOutcome.portInUse →
      (ensureRunning env).spawned = false) := by
  obtain ⟨h, a1, a2, pids, s⟩ := env
  cases h <;> cases a1 <;> cases a2 <;> cases s <;>
    simp [ensureRunning]

end VibeRemote
